import Mathlib

/-!
Shallow embedding of the metrics engine of `src/app.py` (function
`compute_metrics` together with its helpers `normalize_status`,
`coerce_datetime`, `row_days`, `row_type`, and the alias-set defaults
of the sidebar).  Tabular data is modelled as a list of column names
plus rows of cells; a cell is null (NaN/None/NaT), a string, or some
other non-string scalar (modelled as an integer).  Timestamps are a
calendar day (integer, days since an arbitrary epoch) plus a
time-of-day component; `pandas` comparison of timestamps is the
lexicographic order on that pair, and `.date()` keeps the day.  The
external best-effort parser `pd.to_datetime(errors="coerce")` is a
parameter `parse`, returning `none` exactly where pandas returns NaT.
-/

/-- A cell of the input table: NaN/None, a string, or another scalar. -/
inductive Cell where
  | null : Cell
  | str : String → Cell
  | int : Int → Cell
deriving DecidableEq, Repr

/-- Python `str.lower()` restricted to per-character case mapping. -/
def strLower (s : String) : String := ⟨s.data.map Char.toLower⟩

/-- Python `str.upper()` restricted to per-character case mapping. -/
def strUpper (s : String) : String := ⟨s.data.map Char.toUpper⟩

/-- Python `str.strip()`: drop leading and trailing whitespace. -/
def strStrip (s : String) : String :=
  ⟨((s.data.dropWhile Char.isWhitespace).reverse.dropWhile Char.isWhitespace).reverse⟩

/-- Code-point comparison of characters, as Python compares strings. -/
def charLtB (a b : Char) : Bool := decide (a.toNat < b.toNat)

/-- Lexicographic code-point order on character lists. -/
def charListLeB : List Char → List Char → Bool
  | [], _ => true
  | _ :: _, [] => false
  | a :: as, b :: bs =>
    if charLtB a b then true else if charLtB b a then false else charListLeB as bs

/-- Python string comparison `a <= b`: lexicographic on code points. -/
def strLeB (a b : String) : Bool := charListLeB a.data b.data

/-- A parsed timestamp: calendar day plus time-of-day.  Pandas compares
timestamps as instants, i.e. lexicographically on (day, time). -/
structure Timestamp where
  day : Int
  tod : Nat
deriving DecidableEq, Repr

/-- Order on timestamps (instant order): earlier day, or same day and
no later time-of-day. -/
def Timestamp.le (a b : Timestamp) : Prop :=
  a.day < b.day ∨ (a.day = b.day ∧ a.tod ≤ b.tod)

instance (a b : Timestamp) : Decidable (Timestamp.le a b) := by
  unfold Timestamp.le; exact inferInstance

/-- Binary minimum of two timestamps, as pandas `min` computes it. -/
def tsMin (a b : Timestamp) : Timestamp :=
  if Timestamp.le a b then a else b

/-- Minimum of a column of timestamps (`Series.min`): `none` on an
empty column. -/
def getMin : List Timestamp → Option Timestamp
  | [] => none
  | h :: t => some (t.foldl tsMin h)

/-- The uploaded dataframe: column names and rows of cells (each row
indexed positionally like the columns). -/
structure DataFrame where
  cols : List String
  rows : List (List Cell)
deriving DecidableEq, Repr

/-- The four required logical column names, in the order the source
lists them (`required` in `compute_metrics`). -/
def requiredCols : List String :=
  ["key", "date of change", "status", "status [new]"]

/-- `cols = {c.lower(): c for c in df_raw.columns}` followed by a dict
lookup: the dict keeps the last column whose lowercasing matches. -/
def resolveCol (cols : List String) (name : String) : Option String :=
  cols.reverse.find? (fun c => strLower c == name)

/-- `missing = [c for c in required if c not in cols]`. -/
def missingCols (cols : List String) : List String :=
  requiredCols.filter (fun r => (resolveCol cols r).isNone)

/-- `normalize_status`: trim and upper-case strings, pass everything
else through unchanged. -/
def normalize_status : Cell → Cell
  | Cell.str s => Cell.str (strUpper (strStrip s))
  | c => c

/-- `coerce_datetime`: `pd.to_datetime(errors="coerce")` is the
external parser `parse`; it already returns NaT (`none`) on failure,
so the `try/except` wrapper adds nothing. -/
def coerce_datetime (parse : Cell → Option Timestamp) (c : Cell) : Option Timestamp :=
  parse c

/-- One row of the renamed working frame after the three `.apply`
lines: statuses normalized, `Date of change` parsed. -/
structure Event where
  key : Cell
  date : Option Timestamp
  status : Cell
  statusNew : Cell
deriving DecidableEq, Repr

/-- Cell of `row` under the logical column `name`: label selection in
the renamed frame picks the column that was renamed, i.e. the one the
lowercase dict resolved. -/
def getCol (cols : List String) (row : List Cell) (name : String) : Cell :=
  match resolveCol cols name with
  | some actual => row.getD (List.findIdx (fun c => c == actual) cols) Cell.null
  | none => Cell.null

/-- Build one working-frame row: rename plus the three `.apply` lines
(lines 53-62 of the source). -/
def mkEvent (parse : Cell → Option Timestamp) (cols : List String) (row : List Cell) : Event :=
  { key := getCol cols row "key"
  , date := coerce_datetime parse (getCol cols row "date of change")
  , status := normalize_status (getCol cols row "status")
  , statusNew := normalize_status (getCol cols row "status [new]") }

/-- A retained row after `df.dropna(subset=["Key", "Date of change"])`:
the key is non-null and the date parsed. -/
structure REvent where
  key : Cell
  date : Timestamp
  status : Cell
  statusNew : Cell
deriving DecidableEq, Repr

/-- `df = df.dropna(subset=["Key", "Date of change"])`. -/
def dropNa (evs : List Event) : List REvent :=
  evs.filterMap (fun e =>
    match e.date with
    | some t => if e.key = Cell.null then none else some ⟨e.key, t, e.status, e.statusNew⟩
    | none => none)

/-- The working event set of a call: rename, normalize, parse, then
drop null keys and unparseable dates (lines 53-64). -/
def retainedStage (parse : Cell → Option Timestamp) (dfRaw : DataFrame) : List REvent :=
  dropNa (dfRaw.rows.map (mkEvent parse dfRaw.cols))

/-- `Series.isin(alias_set)` on a normalized status cell: only string
cells can be members of a set of strings. -/
def isInAliases (aliases : List String) : Cell → Bool
  | Cell.str s => aliases.contains s
  | _ => false

/-- The `Date of change` values of the pairs whose key is `k`
(one group of `groupby("Key")`). -/
def datesOf (ps : List (Cell × Timestamp)) (k : Cell) : List Timestamp :=
  (ps.filter (fun p => decide (p.1 = k))).map Prod.snd

/-- First-occurrence deduplication, as `pd.unique` keeps order. -/
def pdUniqueAux (seen : List Cell) : List Cell → List Cell
  | [] => []
  | a :: l => if a ∈ seen then pdUniqueAux seen l else a :: pdUniqueAux (a :: seen) l

/-- `pd.unique`: deduplicate keeping the first occurrence. -/
def pdUnique (l : List Cell) : List Cell := pdUniqueAux [] l

/-- A fixed total order on cells, standing in for how pandas orders
group keys and sort keys (all-string data is ordered lexicographically;
the cross-constructor cases fix an arbitrary rank). -/
def cellRank : Cell → Nat
  | Cell.int _ => 0
  | Cell.str _ => 1
  | Cell.null => 2

/-- Boolean comparator on cells; lexicographic on strings. -/
def cellLeB : Cell → Cell → Bool
  | Cell.str s, Cell.str t => strLeB s t
  | Cell.int m, Cell.int n => decide (m ≤ n)
  | a, b => decide (cellRank a ≤ cellRank b)

/-- `groupby("Key", as_index=False)["Date of change"].min()`: one row
per distinct key, carrying the minimum timestamp of its group; pandas
emits the group keys sorted. -/
def groupMin (ps : List (Cell × Timestamp)) : List (Cell × Timestamp) :=
  (List.insertionSort (fun a b => cellLeB a b = true) (pdUnique (ps.map Prod.fst))).filterMap
    (fun k => (getMin (datesOf ps k)).map (fun t => (k, t)))

/-- The per-alias-set table (lines 66-78): filter the working set on
membership of the normalized `Status [new]`, then group-minimize. -/
def aliasTable (aliases : List String) (df : List REvent) : List (Cell × Timestamp) :=
  groupMin ((df.filter (fun e => isInAliases aliases e.statusNew)).map (fun e => (e.key, e.date)))

/-- One row of the merged results frame before the metric columns. -/
structure JoinRow where
  key : Cell
  ip : Option Timestamp
  dn : Option Timestamp
deriving DecidableEq, Repr

/-- Lookup of a key in a single-key-column table. -/
def lookupKey (k : Cell) : List (Cell × Timestamp) → Option Timestamp
  | [] => none
  | p :: ps => if p.1 = k then some p.2 else lookupKey k ps

/-- `pd.merge(in_prog, done, on="Key", how="outer")`: matched and
left-only rows, then right-only rows.  (Pandas orders an outer merge
by sorted key, but both operand tables have unique keys and the final
`sort_values` fixes the output order, so only membership matters.) -/
def outerMerge (ip dn : List (Cell × Timestamp)) : List JoinRow :=
  ip.map (fun p => ⟨p.1, some p.2, lookupKey p.1 dn⟩) ++
  (dn.filter (fun p => (lookupKey p.1 ip).isNone)).map (fun p => ⟨p.1, none, some p.2⟩)

/-- `row_days` (lines 85-95): inclusive day count, against the done
date when present, else against today in the configured timezone;
absent without an in-progress date. -/
def row_days (todayLocal : Int) (ip dn : Option Timestamp) : Option Int :=
  match ip with
  | some ipt =>
    match dn with
    | some dnt => some (dnt.day - ipt.day + 1)
    | none => some (todayLocal - ipt.day + 1)
  | none => none

/-- `row_type` (lines 97-100): Cycle Time if a done date is present,
else Work Item Age if an in-progress date is present, else absent. -/
def row_type (ip dn : Option Timestamp) : Option String :=
  if dn.isSome then some "Cycle Time"
  else if ip.isSome then some "Work Item Age"
  else none

/-- One row of the final results table. -/
structure MetricRow where
  key : Cell
  inProgressDate : Option Timestamp
  doneDate : Option Timestamp
  days : Option Int
  metricType : Option String
deriving DecidableEq, Repr

/-- The two `results.apply(..., axis=1)` column assignments. -/
def addMetrics (todayLocal : Int) (rs : List JoinRow) : List MetricRow :=
  rs.map (fun r => ⟨r.key, r.ip, r.dn, row_days todayLocal r.ip r.dn, row_type r.ip r.dn⟩)

/-- Comparator of `sort_values(by=["Metric Type", "Key"])`: metric type
first (NaN, i.e. `none`, placed last), then key. -/
def optStrLeB : Option String → Option String → Bool
  | none, none => true
  | none, some _ => false
  | some _, none => true
  | some s, some t => strLeB s t

/-- Row comparator of the final sort. -/
def rowLeB (r1 r2 : MetricRow) : Bool :=
  if r1.metricType = r2.metricType then cellLeB r1.key r2.key
  else optStrLeB r1.metricType r2.metricType

/-- `results.sort_values(by=["Metric Type", "Key"], ascending=[True, True])`. -/
def sortResults (rs : List MetricRow) : List MetricRow :=
  List.insertionSort (fun a b => rowLeB a b = true) rs

/-- String payload of a cell, used by the `isinstance(s, str)` filter. -/
def cellStr : Cell → Option String
  | Cell.str s => some s
  | _ => none

/-- Lines 105-108: concatenate the two status columns of the retained
frame with NaN dropped, `pd.unique`, keep strings, sort ascending. -/
def statusCatalog (evs : List REvent) : List String :=
  let concatVals :=
    (evs.map REvent.status).filter (fun c => decide (c ≠ Cell.null)) ++
    (evs.map REvent.statusNew).filter (fun c => decide (c ≠ Cell.null))
  List.insertionSort (fun a b : String => strLeB a b = true) ((pdUnique concatVals).filterMap cellStr)

/-- `compute_metrics` (lines 45-111).  `todayLocal` is
`datetime.now(tz=local_tz).date()` passed explicitly; `parse` is the
pandas datetime parser.  The `ValueError` on missing columns carries
the list of missing logical names. -/
def compute_metrics (parse : Cell → Option Timestamp) (dfRaw : DataFrame)
    (inProgSet doneSet : List String) (todayLocal : Int) :
    Except (List String) (List MetricRow × List String) :=
  let missing := missingCols dfRaw.cols
  if missing = [] then
    let df := retainedStage parse dfRaw
    let inProg := aliasTable inProgSet df
    let done := aliasTable doneSet df
    let results := addMetrics todayLocal (outerMerge inProg done)
    Except.ok (sortResults results, statusCatalog df)
  else
    Except.error missing

/-- The caller only ever reads `df_raw` (its `.columns`, and `.rename`
which returns a fresh frame that is then `.copy()`-ed); every later
column assignment targets that copy or a freshly built frame.  This
state-passing form threads the caller-owned frame through the call and
returns it alongside the result. -/
def compute_metrics_frame (parse : Cell → Option Timestamp) (dfRaw : DataFrame)
    (inProgSet doneSet : List String) (todayLocal : Int) :
    DataFrame × Except (List String) (List MetricRow × List String) :=
  (dfRaw, compute_metrics parse dfRaw inProgSet doneSet todayLocal)

/-- Default in-progress aliases of the sidebar, after split/trim/upper. -/
def defaultInProgress : List String :=
  ["IN PROGRESS", "IN-PROGRESS", "IN_PROGRESS", "INPROGRESS"]

/-- Default done aliases of the sidebar, after split/trim/upper. -/
def defaultDone : List String := ["DONE", "CLOSED", "RESOLVED"]

/-- Results component of a successful call, empty on failure (used to
state closed counterexamples). -/
def okResults (x : Except (List String) (List MetricRow × List String)) : List MetricRow :=
  match x with
  | Except.ok p => p.1
  | Except.error _ => []

/-- Reference reading of "minimum of the dates": the value, when
present, is a member of the list and a lower bound; absent exactly on
the empty list. -/
def optIsMin : Option Timestamp → List Timestamp → Prop
  | none, l => l = []
  | some t, l => t ∈ l ∧ ∀ u ∈ l, Timestamp.le t u

/-- The timestamps of retained events of key `k` whose normalized new
status lies in the alias set: the population whose minimum the claims
speak about. -/
def qualDates (parse : Cell → Option Timestamp) (df : DataFrame)
    (aliases : List String) (k : Cell) : List Timestamp :=
  (((retainedStage parse df).filter (fun e => isInAliases aliases e.statusNew)).filter
    (fun e => decide (e.key = k))).map REvent.date

/-- Key is a blank (empty after trimming) string; the spec discard
claim treats such keys like null ones. -/
def isBlank : Cell → Bool
  | Cell.str s => strStrip s == ""
  | _ => false

/-- Date portion of a timestamp, embedded back into the timestamp
column as midnight (what storing only the date would mean). -/
def datePortion (t : Timestamp) : Timestamp := ⟨t.day, 0⟩

/-- A concrete stand-in for the pandas datetime parser on the cells
used by the concrete scenarios (days since 1970-01-01). -/
def demoParse : Cell → Option Timestamp
  | Cell.str "2024-01-01" => some ⟨19723, 0⟩
  | Cell.str "2024-01-05" => some ⟨19727, 0⟩
  | Cell.str "2024-02-10" => some ⟨19763, 0⟩
  | Cell.str "2024-03-01" => some ⟨19783, 0⟩
  | Cell.str "2024-01-01 10:30" => some ⟨19723, 630⟩
  | _ => none

/-- The two-row scenario of the spec: `K1` moves to IN PROGRESS on
2024-01-01 and to DONE on 2024-01-05. -/
def dfScenario : DataFrame :=
  { cols := ["Key", "Date of change", "Status", "Status [new]"]
  , rows := [ [Cell.str "K1", Cell.str "2024-01-01", Cell.null, Cell.str "IN PROGRESS"]
            , [Cell.str "K1", Cell.str "2024-01-05", Cell.null, Cell.str "DONE"] ] }

/-- The single result row the scenario produces. -/
def rowScenario : MetricRow :=
  ⟨Cell.str "K1", some ⟨19723, 0⟩, some ⟨19727, 0⟩, some 5, some "Cycle Time"⟩

/-- A dataset whose only event is a done transition (no in-progress
event at all). -/
def dfDoneOnly : DataFrame :=
  { cols := ["Key", "Date of change", "Status", "Status [new]"]
  , rows := [ [Cell.str "K1", Cell.str "2024-02-10", Cell.null, Cell.str "Done"] ] }

/-- The result row of `dfDoneOnly`: Cycle Time with no in-progress
date. -/
def rowDoneOnly : MetricRow :=
  ⟨Cell.str "K1", none, some ⟨19763, 0⟩, none, some "Cycle Time"⟩

/-- A dataset whose only row has a blank (empty-string) key and a
valid done transition. -/
def dfBlankKey : DataFrame :=
  { cols := ["Key", "Date of change", "Status", "Status [new]"]
  , rows := [ [Cell.str "", Cell.str "2024-03-01", Cell.null, Cell.str "DONE"] ] }

/-- A dataset whose only event carries a time-of-day (10:30). -/
def dfMorning : DataFrame :=
  { cols := ["Key", "Date of change", "Status", "Status [new]"]
  , rows := [ [Cell.str "K1", Cell.str "2024-01-01 10:30", Cell.null, Cell.str "IN PROGRESS"] ] }

/-- The result row of `dfMorning` under today = 19800: the stored
in-progress value keeps its time-of-day. -/
def rowMorning : MetricRow :=
  ⟨Cell.str "K1", some ⟨19723, 630⟩, none, some 78, some "Work Item Age"⟩

/-- A dataset missing the `Status [new]` column. -/
def dfMissing : DataFrame :=
  { cols := ["Key", "Date of change", "Status"], rows := [] }

/-- Claim C1 exactly as stated, specialized to one call: each result
row is classified as Cycle Time or Work Item Age, or both dates are
absent; and never Cycle Time while the in-progress date is absent. -/
def specClaimC1 (parse : Cell → Option Timestamp) (df : DataFrame)
    (ipS dnS : List String) (today : Int) : Prop :=
  ∀ r ∈ okResults (compute_metrics parse df ipS dnS today),
    ((r.metricType = some "Cycle Time" ∨ r.metricType = some "Work Item Age") ∨
      (r.inProgressDate = none ∧ r.doneDate = none)) ∧
    ¬ (r.metricType = some "Cycle Time" ∧ r.inProgressDate = none)

/-- Claim C2 exactly as stated, specialized to one call: the working
event set contains no row whose key is null or blank. -/
def specClaimC2 (parse : Cell → Option Timestamp) (df : DataFrame) : Prop :=
  ∀ e ∈ retainedStage parse df, e.key ≠ Cell.null ∧ isBlank e.key = false

/-- Claim C5 exactly as stated, specialized to one call: each present
date field equals the date portion of the minimum qualifying
timestamp. -/
def specClaimC5 (parse : Cell → Option Timestamp) (df : DataFrame)
    (ipS dnS : List String) (today : Int) : Prop :=
  ∀ r ∈ okResults (compute_metrics parse df ipS dnS today),
    r.inProgressDate = (getMin (qualDates parse df ipS r.key)).map datePortion ∧
    r.doneDate = (getMin (qualDates parse df dnS r.key)).map datePortion

theorem Timestamp.le_refl (a : Timestamp) : Timestamp.le a a := by
  unfold Timestamp.le; right; exact ⟨rfl, Nat.le_refl _⟩

theorem Timestamp.le_trans {a b c : Timestamp} (h1 : Timestamp.le a b) (h2 : Timestamp.le b c) :
    Timestamp.le a c := by
  unfold Timestamp.le at *
  rcases h1 with h1 | ⟨h1, h1t⟩ <;> rcases h2 with h2 | ⟨h2, h2t⟩
  · exact Or.inl (h1.trans h2)
  · exact Or.inl (h2 ▸ h1)
  · exact Or.inl (h1 ▸ h2)
  · exact Or.inr ⟨h1.trans h2, h1t.trans h2t⟩

theorem Timestamp.le_total (a b : Timestamp) : Timestamp.le a b ∨ Timestamp.le b a := by
  unfold Timestamp.le
  rcases Int.lt_trichotomy a.day b.day with h | h | h
  · exact Or.inl (Or.inl h)
  · rcases Nat.le_total a.tod b.tod with ht | ht
    · exact Or.inl (Or.inr ⟨h, ht⟩)
    · exact Or.inr (Or.inr ⟨h.symm, ht⟩)
  · exact Or.inr (Or.inl h)

theorem tsMin_cases (a b : Timestamp) : tsMin a b = a ∨ tsMin a b = b := by
  unfold tsMin; split <;> simp

theorem tsMin_le_left (a b : Timestamp) : Timestamp.le (tsMin a b) a := by
  unfold tsMin; split
  · exact Timestamp.le_refl a
  · rcases Timestamp.le_total a b with h | h
    · exact absurd h (by assumption)
    · exact h

theorem tsMin_le_right (a b : Timestamp) : Timestamp.le (tsMin a b) b := by
  unfold tsMin; split
  · assumption
  · exact Timestamp.le_refl b

theorem foldl_tsMin_spec (l : List Timestamp) : ∀ h : Timestamp,
    (l.foldl tsMin h = h ∨ l.foldl tsMin h ∈ l) ∧
    Timestamp.le (l.foldl tsMin h) h ∧ ∀ u ∈ l, Timestamp.le (l.foldl tsMin h) u := by
  induction l with
  | nil => intro h; exact ⟨Or.inl rfl, Timestamp.le_refl h, by simp⟩
  | cons a l ih =>
    intro h
    have hfold : (a :: l).foldl tsMin h = l.foldl tsMin (tsMin h a) := rfl
    obtain ⟨hmem, hle, hall⟩ := ih (tsMin h a)
    refine ⟨?_, ?_, ?_⟩
    · rcases hmem with hm | hm
      · rcases tsMin_cases h a with hc | hc
        · rw [hfold, hm, hc]; exact Or.inl rfl
        · rw [hfold, hm, hc]; exact Or.inr (List.mem_cons_self a l)
      · rw [hfold]; exact Or.inr (List.mem_cons_of_mem a hm)
    · rw [hfold]; exact Timestamp.le_trans hle (tsMin_le_left h a)
    · intro u hu
      rcases List.mem_cons.mp hu with rfl | hu
      · rw [hfold]; exact Timestamp.le_trans hle (tsMin_le_right h u)
      · rw [hfold]; exact hall u hu

theorem getMin_spec (l : List Timestamp) : optIsMin (getMin l) l := by
  cases l with
  | nil => simp [getMin, optIsMin]
  | cons h t =>
    obtain ⟨hmem, hle, hall⟩ := foldl_tsMin_spec t h
    refine ⟨?_, ?_⟩
    · rcases hmem with hm | hm
      · rw [hm]; exact List.mem_cons_self h t
      · exact List.mem_cons_of_mem h hm
    · intro u hu
      rcases List.mem_cons.mp hu with rfl | hu
      · exact hle
      · exact hall u hu

theorem getMin_eq_none {l : List Timestamp} : getMin l = none ↔ l = [] := by
  cases l <;> simp [getMin]

theorem mem_pdUniqueAux {a : Cell} : ∀ {seen l : List Cell},
    a ∈ pdUniqueAux seen l ↔ a ∈ l ∧ a ∉ seen := by
  intro seen l
  induction l generalizing seen with
  | nil => simp [pdUniqueAux]
  | cons b l ih =>
    by_cases hb : b ∈ seen
    · simp only [pdUniqueAux, if_pos hb, ih, List.mem_cons]
      constructor
      · rintro ⟨h1, h2⟩; exact ⟨Or.inr h1, h2⟩
      · rintro ⟨h1 | h1, h2⟩
        · subst h1; exact absurd hb h2
        · exact ⟨h1, h2⟩
    · simp only [pdUniqueAux, if_neg hb, List.mem_cons, ih]
      constructor
      · rintro (rfl | ⟨h1, h2⟩)
        · exact ⟨Or.inl rfl, hb⟩
        · refine ⟨Or.inr h1, fun hs => h2 (Or.inr hs)⟩
      · rintro ⟨h1 | h1, h2⟩
        · exact Or.inl h1
        · by_cases hab : a = b
          · exact Or.inl hab
          · exact Or.inr ⟨h1, by simp [List.mem_cons, hab, h2]⟩

theorem mem_pdUnique {a : Cell} {l : List Cell} : a ∈ pdUnique l ↔ a ∈ l := by
  simp [pdUnique, mem_pdUniqueAux]

theorem nodup_pdUniqueAux : ∀ (seen l : List Cell), (pdUniqueAux seen l).Nodup := by
  intro seen l
  induction l generalizing seen with
  | nil => simp [pdUniqueAux]
  | cons b l ih =>
    by_cases hb : b ∈ seen
    · simpa [pdUniqueAux, if_pos hb] using ih seen
    · simp only [pdUniqueAux, if_neg hb, List.nodup_cons]
      refine ⟨fun hmem => ?_, ih (b :: seen)⟩
      exact (mem_pdUniqueAux.mp hmem).2 (List.mem_cons_self b seen)

theorem nodup_pdUnique (l : List Cell) : (pdUnique l).Nodup := nodup_pdUniqueAux [] l

theorem lookupKey_eq_some_of_mem {ps : List (Cell × Timestamp)} {p : Cell × Timestamp}
    (hmem : p ∈ ps) (hnd : (ps.map Prod.fst).Nodup) : lookupKey p.1 ps = some p.2 := by
  induction ps with
  | nil => cases hmem
  | cons q ps ih =>
    simp only [List.map_cons, List.nodup_cons] at hnd
    rcases List.mem_cons.mp hmem with rfl | hmem
    · simp [lookupKey]
    · have hq : ¬ (q.1 = p.1) := by
        intro he
        exact hnd.1 (he ▸ List.mem_map_of_mem Prod.fst hmem)
      simp only [lookupKey, if_neg hq]
      exact ih hmem hnd.2

theorem lookupKey_isNone_of_not_mem {ps : List (Cell × Timestamp)} {k : Cell}
    (h : k ∉ ps.map Prod.fst) : lookupKey k ps = none := by
  induction ps with
  | nil => rfl
  | cons q ps ih =>
    simp only [List.map_cons, List.mem_cons, not_or] at h
    simp only [lookupKey, if_neg (fun he : q.1 = k => h.1 he.symm)]
    exact ih h.2

theorem lookupKey_filterMap_keys (g : Cell → Option Timestamp) (k : Cell) :
    ∀ ks : List Cell, ks.Nodup →
      lookupKey k (ks.filterMap (fun x => (g x).map (fun t => (x, t)))) =
        if k ∈ ks then g k else none := by
  intro ks
  induction ks with
  | nil => intro _; simp [lookupKey]
  | cons x ks ih =>
    intro hnodup
    obtain ⟨hx, hnd2⟩ := List.nodup_cons.mp hnodup
    by_cases hk : k = x
    · subst hk
      cases hg : g k with
      | none =>
        simp only [List.filterMap_cons, hg, Option.map_none']
        rw [ih hnd2]
        simp [hx, hg]
      | some t =>
        simp only [List.filterMap_cons, hg, Option.map_some']
        simp [lookupKey]
    · cases hg : g x with
      | none =>
        simp only [List.filterMap_cons, hg, Option.map_none']
        rw [ih hnd2]
        simp [List.mem_cons, hk]
      | some t =>
        simp only [List.filterMap_cons, hg, Option.map_some']
        simp only [lookupKey, if_neg (fun he : x = k => hk he.symm)]
        rw [ih hnd2]
        simp [List.mem_cons, hk]

theorem datesOf_eq_nil_of_not_mem {ps : List (Cell × Timestamp)} {k : Cell}
    (h : k ∉ ps.map Prod.fst) : datesOf ps k = [] := by
  unfold datesOf
  have hf : ps.filter (fun p => decide (p.1 = k)) = [] := by
    rw [List.filter_eq_nil_iff]
    intro p hp
    simp only [decide_eq_true_eq]
    intro he
    exact h (he ▸ List.mem_map_of_mem Prod.fst hp)
  rw [hf, List.map_nil]

theorem keys_groupMin_nodup (ps : List (Cell × Timestamp)) :
    ((groupMin ps).map Prod.fst).Nodup := by
  unfold groupMin
  have hnd : (List.insertionSort (fun a b => cellLeB a b = true)
      (pdUnique (ps.map Prod.fst))).Nodup :=
    ((List.perm_insertionSort _ _).nodup_iff).mpr (nodup_pdUnique _)
  generalize (List.insertionSort (fun a b => cellLeB a b = true)
      (pdUnique (ps.map Prod.fst))) = ks at hnd
  induction ks with
  | nil => simp
  | cons x ks ih =>
    obtain ⟨hx, hnd2⟩ := List.nodup_cons.mp hnd
    cases hg : getMin (datesOf ps x) with
    | none =>
      simp only [List.filterMap_cons, hg, Option.map_none']
      exact ih hnd2
    | some t =>
      simp only [List.filterMap_cons, hg, Option.map_some', List.map_cons, List.nodup_cons]
      refine ⟨fun hmem => ?_, ih hnd2⟩
      obtain ⟨p, hp, hpe⟩ := List.mem_map.mp hmem
      obtain ⟨y, hy, hye⟩ := List.mem_filterMap.mp hp
      cases hgy : getMin (datesOf ps y) with
      | none => rw [hgy] at hye; cases hye
      | some u =>
        rw [hgy] at hye
        simp only [Option.map_some', Option.some.injEq] at hye
        have : y = x := by
          have := hpe
          rw [← hye] at this
          exact this
        exact hx (this ▸ hy)

theorem lookupKey_groupMin (ps : List (Cell × Timestamp)) (k : Cell) :
    lookupKey k (groupMin ps) = getMin (datesOf ps k) := by
  unfold groupMin
  have hnd : (List.insertionSort (fun a b => cellLeB a b = true)
      (pdUnique (ps.map Prod.fst))).Nodup :=
    ((List.perm_insertionSort _ _).nodup_iff).mpr (nodup_pdUnique _)
  rw [lookupKey_filterMap_keys _ _ _ hnd]
  by_cases hk : k ∈ List.insertionSort (fun a b => cellLeB a b = true) (pdUnique (ps.map Prod.fst))
  · rw [if_pos hk]
  · rw [if_neg hk]
    have hk2 : k ∉ ps.map Prod.fst := by
      intro hmem
      exact hk (((List.perm_insertionSort _ _).mem_iff).mpr (mem_pdUnique.mpr hmem))
    rw [datesOf_eq_nil_of_not_mem hk2]
    rfl

theorem datesOf_map_pair (evs : List REvent) (k : Cell) :
    datesOf (evs.map (fun e => (e.key, e.date))) k =
      (evs.filter (fun e => decide (e.key = k))).map REvent.date := by
  unfold datesOf
  rw [List.filter_map, List.map_map]
  rfl

theorem lookupKey_aliasTable (aliases : List String) (parse : Cell → Option Timestamp)
    (df : DataFrame) (k : Cell) :
    lookupKey k (aliasTable aliases (retainedStage parse df)) =
      getMin (qualDates parse df aliases k) := by
  unfold aliasTable qualDates
  rw [lookupKey_groupMin, datesOf_map_pair]

theorem mem_outerMerge {A B : List (Cell × Timestamp)} {j : JoinRow}
    (hj : j ∈ outerMerge A B)
    (hA : (A.map Prod.fst).Nodup) (hB : (B.map Prod.fst).Nodup) :
    j.ip = lookupKey j.key A ∧ j.dn = lookupKey j.key B ∧
      (j.ip.isSome = true ∨ j.dn.isSome = true) := by
  unfold outerMerge at hj
  rcases List.mem_append.mp hj with h | h
  · obtain ⟨p, hp, rfl⟩ := List.mem_map.mp h
    exact ⟨(lookupKey_eq_some_of_mem hp hA).symm, rfl, Or.inl rfl⟩
  · obtain ⟨p, hp, rfl⟩ := List.mem_map.mp h
    obtain ⟨hpB, hnone⟩ := List.mem_filter.mp hp
    refine ⟨?_, (lookupKey_eq_some_of_mem hpB hB).symm, Or.inr rfl⟩
    exact (Option.isNone_iff_eq_none.mp hnone).symm

theorem compute_ok_eq (parse : Cell → Option Timestamp) (df : DataFrame)
    (ipS dnS : List String) (today : Int) (h : missingCols df.cols = []) :
    compute_metrics parse df ipS dnS today =
      Except.ok
        (sortResults (addMetrics today
          (outerMerge (aliasTable ipS (retainedStage parse df))
            (aliasTable dnS (retainedStage parse df)))),
         statusCatalog (retainedStage parse df)) := by
  unfold compute_metrics
  simp [h]

theorem compute_error_eq (parse : Cell → Option Timestamp) (df : DataFrame)
    (ipS dnS : List String) (today : Int) (h : missingCols df.cols ≠ []) :
    compute_metrics parse df ipS dnS today = Except.error (missingCols df.cols) := by
  unfold compute_metrics
  simp [h]

theorem compute_ok_inv {parse : Cell → Option Timestamp} {df : DataFrame}
    {ipS dnS : List String} {today : Int} {rs : List MetricRow} {sts : List String}
    (h : compute_metrics parse df ipS dnS today = Except.ok (rs, sts)) :
    missingCols df.cols = [] ∧
    rs = sortResults (addMetrics today
      (outerMerge (aliasTable ipS (retainedStage parse df))
        (aliasTable dnS (retainedStage parse df)))) ∧
    sts = statusCatalog (retainedStage parse df) := by
  by_cases hm : missingCols df.cols = []
  · rw [compute_ok_eq parse df ipS dnS today hm] at h
    injection h with h
    injection h with h1 h2
    exact ⟨hm, h1.symm, h2.symm⟩
  · rw [compute_error_eq parse df ipS dnS today hm] at h
    cases h

theorem mem_results_inv {parse : Cell → Option Timestamp} {df : DataFrame}
    {ipS dnS : List String} {today : Int} {rs : List MetricRow} {sts : List String}
    (h : compute_metrics parse df ipS dnS today = Except.ok (rs, sts))
    {r : MetricRow} (hr : r ∈ rs) :
    ∃ j ∈ outerMerge (aliasTable ipS (retainedStage parse df))
        (aliasTable dnS (retainedStage parse df)),
      r = ⟨j.key, j.ip, j.dn, row_days today j.ip j.dn, row_type j.ip j.dn⟩ := by
  obtain ⟨-, hrs, -⟩ := compute_ok_inv h
  subst hrs
  have hr2 : r ∈ addMetrics today
      (outerMerge (aliasTable ipS (retainedStage parse df))
        (aliasTable dnS (retainedStage parse df))) := by
    unfold sortResults at hr
    exact ((List.perm_insertionSort _ _).mem_iff).mp hr
  obtain ⟨j, hjmem, hje⟩ := List.mem_map.mp hr2
  exact ⟨j, hjmem, hje.symm⟩

theorem keys_aliasTable_nodup (aliases : List String) (R : List REvent) :
    ((aliasTable aliases R).map Prod.fst).Nodup := keys_groupMin_nodup _

theorem results_row_fields {parse : Cell → Option Timestamp} {df : DataFrame}
    {ipS dnS : List String} {today : Int} {rs : List MetricRow} {sts : List String}
    (h : compute_metrics parse df ipS dnS today = Except.ok (rs, sts))
    {r : MetricRow} (hr : r ∈ rs) :
    r.inProgressDate = getMin (qualDates parse df ipS r.key) ∧
    r.doneDate = getMin (qualDates parse df dnS r.key) ∧
    r.days = row_days today r.inProgressDate r.doneDate ∧
    r.metricType = row_type r.inProgressDate r.doneDate ∧
    (r.inProgressDate.isSome = true ∨ r.doneDate.isSome = true) := by
  obtain ⟨j, hjmem, rfl⟩ := mem_results_inv h hr
  obtain ⟨hip, hdn, hsome⟩ := mem_outerMerge hjmem
    (keys_aliasTable_nodup ipS (retainedStage parse df))
    (keys_aliasTable_nodup dnS (retainedStage parse df))
  refine ⟨?_, ?_, rfl, rfl, hsome⟩
  · rw [hip]; exact lookupKey_aliasTable ipS parse df j.key
  · rw [hdn]; exact lookupKey_aliasTable dnS parse df j.key

theorem mem_dropNa {evs : List Event} {e : REvent} :
    e ∈ dropNa evs ↔ ∃ ev ∈ evs, ev.key ≠ Cell.null ∧ ev.date = some e.date ∧
      e.key = ev.key ∧ e.status = ev.status ∧ e.statusNew = ev.statusNew := by
  unfold dropNa
  rw [List.mem_filterMap]
  constructor
  · rintro ⟨ev, hev, hf⟩
    cases hd : ev.date with
    | none => simp [hd] at hf
    | some t =>
      simp only [hd] at hf
      by_cases hk : ev.key = Cell.null
      · rw [if_pos hk] at hf; cases hf
      · rw [if_neg hk] at hf
        injection hf with hf
        subst hf
        exact ⟨ev, hev, hk, hd, rfl, rfl, rfl⟩
  · rintro ⟨ev, hev, hk, hd, h1, h2, h3⟩
    refine ⟨ev, hev, ?_⟩
    simp only [hd, if_neg hk]
    cases e with
    | mk ek ed es esn =>
      simp only at h1 h2 h3
      subst h1; subst h2; subst h3
      rfl

theorem charLtB_true_iff {a b : Char} : charLtB a b = true ↔ a.toNat < b.toNat := by
  unfold charLtB; simp

theorem charListLeB_cons_iff {a b : Char} {as bs : List Char} :
    charListLeB (a :: as) (b :: bs) = true ↔
      a.toNat < b.toNat ∨ (a.toNat = b.toNat ∧ charListLeB as bs = true) := by
  by_cases hab : a.toNat < b.toNat
  · simp [charListLeB, charLtB, hab]
  · by_cases hba : b.toNat < a.toNat
    · have hne : a.toNat ≠ b.toNat := fun he => Nat.lt_irrefl _ (he ▸ hba)
      simp [charListLeB, charLtB, hab, hba, hne]
    · have heq : a.toNat = b.toNat :=
        Nat.le_antisymm (Nat.le_of_not_lt hba) (Nat.le_of_not_lt hab)
      simp [charListLeB, charLtB, hab, hba, heq]

theorem charListLeB_total : ∀ as bs : List Char,
    charListLeB as bs = true ∨ charListLeB bs as = true := by
  intro as
  induction as with
  | nil => intro bs; left; rfl
  | cons a as ih =>
    intro bs
    cases bs with
    | nil => right; rfl
    | cons b bs =>
      rcases Nat.lt_trichotomy a.toNat b.toNat with h | h | h
      · left; exact charListLeB_cons_iff.mpr (Or.inl h)
      · rcases ih bs with hr | hr
        · left; exact charListLeB_cons_iff.mpr (Or.inr ⟨h, hr⟩)
        · right; exact charListLeB_cons_iff.mpr (Or.inr ⟨h.symm, hr⟩)
      · right; exact charListLeB_cons_iff.mpr (Or.inl h)

theorem charListLeB_trans : ∀ as bs cs : List Char,
    charListLeB as bs = true → charListLeB bs cs = true → charListLeB as cs = true := by
  intro as
  induction as with
  | nil => intro bs cs _ _; rfl
  | cons a as ih =>
    intro bs cs h1 h2
    cases bs with
    | nil => cases h1
    | cons b bs =>
      cases cs with
      | nil => cases h2
      | cons c cs =>
        rcases charListLeB_cons_iff.mp h1 with hab | ⟨hab, hab2⟩ <;>
          rcases charListLeB_cons_iff.mp h2 with hbc | ⟨hbc, hbc2⟩
        · exact charListLeB_cons_iff.mpr (Or.inl (hab.trans hbc))
        · exact charListLeB_cons_iff.mpr (Or.inl (hbc ▸ hab))
        · exact charListLeB_cons_iff.mpr (Or.inl (hab ▸ hbc))
        · exact charListLeB_cons_iff.mpr (Or.inr ⟨hab.trans hbc, ih bs cs hab2 hbc2⟩)

instance : IsTotal String (fun a b : String => strLeB a b = true) :=
  ⟨fun a b => charListLeB_total a.data b.data⟩

instance : IsTrans String (fun a b : String => strLeB a b = true) :=
  ⟨fun a b c => charListLeB_trans a.data b.data c.data⟩

theorem sorted_statusCatalog (evs : List REvent) :
    List.Sorted (fun a b : String => strLeB a b = true) (statusCatalog evs) := by
  unfold statusCatalog
  exact List.sorted_insertionSort _ _

theorem nodup_statusCatalog (evs : List REvent) : (statusCatalog evs).Nodup := by
  unfold statusCatalog
  apply ((List.perm_insertionSort _ _).nodup_iff).mpr
  apply List.Nodup.filterMap
  · intro a a' b hb hb'
    cases a with
    | str t => cases a' with
      | str t' =>
        simp only [cellStr, Option.mem_def, Option.some.injEq] at hb hb'
        rw [hb, hb']
      | null => simp [cellStr] at hb'
      | int n => simp [cellStr] at hb'
    | null => simp [cellStr] at hb
    | int n => simp [cellStr] at hb
  · exact nodup_pdUnique _

theorem mem_statusCatalog {evs : List REvent} {s : String} :
    s ∈ statusCatalog evs ↔
      ∃ e ∈ evs, e.status = Cell.str s ∨ e.statusNew = Cell.str s := by
  unfold statusCatalog
  rw [(List.perm_insertionSort _ _).mem_iff, List.mem_filterMap]
  constructor
  · rintro ⟨c, hc, hcs⟩
    have hc2 := mem_pdUnique.mp hc
    cases c with
    | str t =>
      simp only [cellStr, Option.some.injEq] at hcs
      subst hcs
      rcases List.mem_append.mp hc2 with h | h
      · obtain ⟨hm, -⟩ := List.mem_filter.mp h
        obtain ⟨e, he, hee⟩ := List.mem_map.mp hm
        exact ⟨e, he, Or.inl hee⟩
      · obtain ⟨hm, -⟩ := List.mem_filter.mp h
        obtain ⟨e, he, hee⟩ := List.mem_map.mp hm
        exact ⟨e, he, Or.inr hee⟩
    | null => cases hcs
    | int n => cases hcs
  · rintro ⟨e, he, hcase⟩
    refine ⟨Cell.str s, mem_pdUnique.mpr ?_, rfl⟩
    rw [List.mem_append]
    rcases hcase with h | h
    · left
      rw [List.mem_filter]
      exact ⟨List.mem_map.mpr ⟨e, he, h⟩, by simp⟩
    · right
      rw [List.mem_filter]
      exact ⟨List.mem_map.mpr ⟨e, he, h⟩, by simp⟩

/-- C1 counterexample: on a dataset whose only event is a done
transition, the single result row has metric type Cycle Time while its
in-progress date is absent, refuting the claim as stated. -/
theorem C1_counterexample :
    ¬ specClaimC1 demoParse dfDoneOnly defaultInProgress defaultDone 19800 := by
  intro h
  exact (h rowDoneOnly (by decide)).2 ⟨rfl, rfl⟩

/-- C1 (amended): every result row is classified as exactly one of
Cycle Time (precisely when a done date is present, possibly with the
in-progress date absent) or Work Item Age (done date absent,
in-progress date present); a row with both date fields absent never
occurs. -/
theorem C1_classification {parse : Cell → Option Timestamp} {df : DataFrame}
    {ipS dnS : List String} {today : Int} {rs : List MetricRow} {sts : List String}
    (h : compute_metrics parse df ipS dnS today = Except.ok (rs, sts))
    {r : MetricRow} (hr : r ∈ rs) :
    (r.metricType = some "Cycle Time" ∧ r.doneDate.isSome = true) ∨
    (r.metricType = some "Work Item Age" ∧ r.doneDate = none ∧
      r.inProgressDate.isSome = true) := by
  obtain ⟨-, -, -, hmt, hsome⟩ := results_row_fields h hr
  cases hdn : r.doneDate with
  | some d =>
    left
    rw [hmt, hdn]
    exact ⟨rfl, rfl⟩
  | none =>
    right
    rcases hsome with hip | hdn2
    · refine ⟨?_, rfl, hip⟩
      rw [hmt, hdn]
      cases hipv : r.inProgressDate with
      | some i => rfl
      | none => rw [hipv] at hip; cases hip
    · rw [hdn] at hdn2; cases hdn2

/-- C1 witness: the amended classification evaluated on the done-only
dataset. -/
theorem C1_classification_witness :
    compute_metrics demoParse dfDoneOnly defaultInProgress defaultDone 19800 =
      Except.ok ([rowDoneOnly], ["DONE"]) ∧
    ((rowDoneOnly.metricType = some "Cycle Time" ∧ rowDoneOnly.doneDate.isSome = true) ∨
     (rowDoneOnly.metricType = some "Work Item Age" ∧ rowDoneOnly.doneDate = none ∧
       rowDoneOnly.inProgressDate.isSome = true)) :=
  ⟨rfl, C1_classification (show compute_metrics demoParse dfDoneOnly defaultInProgress
      defaultDone 19800 = Except.ok ([rowDoneOnly], ["DONE"]) from rfl)
    (show rowDoneOnly ∈ [rowDoneOnly] from by decide)⟩

/-- C2 counterexample: a blank (empty-string) key survives `dropna`
and stays in the working event set, refuting the claim as stated. -/
theorem C2_counterexample : ¬ specClaimC2 demoParse dfBlankKey := by
  intro h
  exact absurd (h ⟨Cell.str "", ⟨19783, 0⟩, Cell.null, Cell.str "DONE"⟩ (by decide)).2
    (by decide)

/-- C2 (amended): before grouping, the engine discards exactly the
rows whose key is null/absent or whose timestamp is unparseable (a
blank but non-null key is retained), and such rows never abort the
computation: whenever the columns resolve, the call succeeds. -/
theorem C2_discard (parse : Cell → Option Timestamp) (df : DataFrame)
    (ipS dnS : List String) (today : Int) (h : missingCols df.cols = []) :
    (∃ out, compute_metrics parse df ipS dnS today = Except.ok out) ∧
    (∀ e : REvent, e ∈ retainedStage parse df ↔
      ∃ ev ∈ df.rows.map (mkEvent parse df.cols),
        ev.key ≠ Cell.null ∧ ev.date = some e.date ∧
        e.key = ev.key ∧ e.status = ev.status ∧ e.statusNew = ev.statusNew) := by
  refine ⟨⟨_, compute_ok_eq parse df ipS dnS today h⟩, ?_⟩
  intro e
  unfold retainedStage
  exact mem_dropNa

/-- C2 witness: the discard characterization evaluated on the
blank-key dataset. -/
theorem C2_discard_witness :
    missingCols dfBlankKey.cols = [] ∧
    (∃ out, compute_metrics demoParse dfBlankKey defaultInProgress defaultDone 19800 =
      Except.ok out) :=
  ⟨rfl, (C2_discard demoParse dfBlankKey defaultInProgress defaultDone 19800 rfl).1⟩

/-- C3: the day count of every result row follows the three cases of
the spec, uncorrected: both dates give an inclusive difference (equal
dates give 1), an in-progress date alone counts against today, and no
in-progress date leaves the count absent. -/
theorem C3_days {parse : Cell → Option Timestamp} {df : DataFrame}
    {ipS dnS : List String} {today : Int} {rs : List MetricRow} {sts : List String}
    (h : compute_metrics parse df ipS dnS today = Except.ok (rs, sts))
    {r : MetricRow} (hr : r ∈ rs) :
    (∀ i d : Timestamp, r.inProgressDate = some i → r.doneDate = some d →
      r.days = some (d.day - i.day + 1)) ∧
    (∀ i : Timestamp, r.inProgressDate = some i → r.doneDate = none →
      r.days = some (today - i.day + 1)) ∧
    (r.inProgressDate = none → r.days = none) ∧
    (∀ i d : Timestamp, r.inProgressDate = some i → r.doneDate = some d →
      d.day = i.day → r.days = some 1) := by
  obtain ⟨-, -, hdays, -, -⟩ := results_row_fields h hr
  refine ⟨?_, ?_, ?_, ?_⟩
  · intro i d hi hd
    rw [hdays, hi, hd]
    rfl
  · intro i hi hd
    rw [hdays, hi, hd]
    rfl
  · intro hi
    rw [hdays, hi]
    rfl
  · intro i d hi hd he
    rw [hdays, hi, hd]
    simp [row_days, he]

/-- C3 witness: the day-count cases evaluated on the two-row
scenario. -/
theorem C3_days_witness :
    compute_metrics demoParse dfScenario defaultInProgress defaultDone 19800 =
      Except.ok ([rowScenario], ["DONE", "IN PROGRESS"]) ∧
    rowScenario.days = some 5 := by
  refine ⟨rfl, ?_⟩
  have h := (C3_days (show compute_metrics demoParse dfScenario defaultInProgress
      defaultDone 19800 = Except.ok ([rowScenario], ["DONE", "IN PROGRESS"]) from rfl)
    (show rowScenario ∈ [rowScenario] from by decide)).1 ⟨19723, 0⟩ ⟨19727, 0⟩ rfl rfl
  simpa using h

/-- C4: column resolution is case-insensitive; the missing list names
exactly the logical columns with no case-insensitive match, in which
case the call fails with that list and produces nothing, and otherwise
the call succeeds. -/
theorem C4_columns (parse : Cell → Option Timestamp) (df : DataFrame)
    (ipS dnS : List String) (today : Int) :
    (∀ r : String, r ∈ missingCols df.cols ↔
      r ∈ requiredCols ∧ ∀ c ∈ df.cols, strLower c ≠ r) ∧
    (missingCols df.cols ≠ [] →
      compute_metrics parse df ipS dnS today = Except.error (missingCols df.cols)) ∧
    (missingCols df.cols = [] →
      ∃ out, compute_metrics parse df ipS dnS today = Except.ok out) := by
  refine ⟨?_, compute_error_eq parse df ipS dnS today,
    fun h => ⟨_, compute_ok_eq parse df ipS dnS today h⟩⟩
  intro r
  unfold missingCols
  rw [List.mem_filter]
  constructor
  · rintro ⟨hreq, hnone⟩
    refine ⟨hreq, ?_⟩
    intro c hc he
    have hfind : resolveCol df.cols r = none := by
      cases hrc : resolveCol df.cols r with
      | none => rfl
      | some a => rw [hrc] at hnone; cases hnone
    unfold resolveCol at hfind
    rw [List.find?_eq_none] at hfind
    exact hfind c (List.mem_reverse.mpr hc) (by simp [he])
  · rintro ⟨hreq, hall⟩
    refine ⟨hreq, ?_⟩
    cases hrc : resolveCol df.cols r with
    | none => rfl
    | some a =>
      exfalso
      unfold resolveCol at hrc
      have hp := List.find?_some hrc
      have hmem := List.mem_reverse.mp (List.mem_of_find?_eq_some hrc)
      exact hall a hmem (by simpa using hp)

/-- C4 witness: the missing-column failure evaluated on a dataset
without a Status [new] column. -/
theorem C4_columns_witness :
    "status [new]" ∈ missingCols dfMissing.cols ∧
    compute_metrics demoParse dfMissing defaultInProgress defaultDone 19800 =
      Except.error (missingCols dfMissing.cols) :=
  ⟨by decide,
    (C4_columns demoParse dfMissing defaultInProgress defaultDone 19800).2.1 (by decide)⟩

/-- C5 counterexample: with an event at 10:30, the stored in-progress
value keeps its time-of-day instead of being only the date portion of
the minimum qualifying timestamp, refuting the claim as stated. -/
theorem C5_counterexample :
    ¬ specClaimC5 demoParse dfMorning defaultInProgress defaultDone 19800 := by
  intro h
  exact absurd (h rowMorning (by decide)).1 (by decide)

/-- C5 (amended): each date field of a result row, when present, is
the minimum (full-precision) changedAt timestamp among retained events
of that key whose normalized new status lies in the corresponding
alias set, and is absent exactly when no such event exists; the date
portion is only taken later, in the day computation. -/
theorem C5_min {parse : Cell → Option Timestamp} {df : DataFrame}
    {ipS dnS : List String} {today : Int} {rs : List MetricRow} {sts : List String}
    (h : compute_metrics parse df ipS dnS today = Except.ok (rs, sts))
    {r : MetricRow} (hr : r ∈ rs) :
    optIsMin r.inProgressDate (qualDates parse df ipS r.key) ∧
    optIsMin r.doneDate (qualDates parse df dnS r.key) := by
  obtain ⟨hip, hdn, -, -, -⟩ := results_row_fields h hr
  rw [hip, hdn]
  exact ⟨getMin_spec _, getMin_spec _⟩

/-- C5 witness: the minimum characterization evaluated on the
morning-timestamp dataset. -/
theorem C5_min_witness :
    compute_metrics demoParse dfMorning defaultInProgress defaultDone 19800 =
      Except.ok ([rowMorning], ["IN PROGRESS"]) ∧
    optIsMin rowMorning.inProgressDate
      (qualDates demoParse dfMorning defaultInProgress rowMorning.key) :=
  ⟨rfl, (C5_min (show compute_metrics demoParse dfMorning defaultInProgress
      defaultDone 19800 = Except.ok ([rowMorning], ["IN PROGRESS"]) from rfl)
    (show rowMorning ∈ [rowMorning] from by decide)).1⟩

/-- C6: the two-row scenario yields exactly one result row, K1 with
days 5 and metric type Cycle Time (for any current date). -/
theorem C6_scenario (today : Int) :
    compute_metrics demoParse dfScenario defaultInProgress defaultDone today =
      Except.ok ([rowScenario], ["DONE", "IN PROGRESS"]) := rfl

/-- C7: the status output is sorted ascending (code-point
lexicographic), duplicate-free, and contains exactly the string-valued
normalized entries of the two status columns over the retained event
set; discarded rows contribute nothing. -/
theorem C7_statuses {parse : Cell → Option Timestamp} {df : DataFrame}
    {ipS dnS : List String} {today : Int} {rs : List MetricRow} {sts : List String}
    (h : compute_metrics parse df ipS dnS today = Except.ok (rs, sts)) :
    List.Sorted (fun a b : String => strLeB a b = true) sts ∧ sts.Nodup ∧
    (∀ s : String, s ∈ sts ↔ ∃ e ∈ retainedStage parse df,
      e.status = Cell.str s ∨ e.statusNew = Cell.str s) := by
  obtain ⟨-, -, hsts⟩ := compute_ok_inv h
  subst hsts
  exact ⟨sorted_statusCatalog _, nodup_statusCatalog _, fun s => mem_statusCatalog⟩

/-- C7 witness: the status catalog properties evaluated on the two-row
scenario. -/
theorem C7_statuses_witness :
    compute_metrics demoParse dfScenario defaultInProgress defaultDone 19800 =
      Except.ok ([rowScenario], ["DONE", "IN PROGRESS"]) ∧
    List.Sorted (fun a b : String => strLeB a b = true) ["DONE", "IN PROGRESS"] :=
  ⟨rfl, (C7_statuses (show compute_metrics demoParse dfScenario defaultInProgress
      defaultDone 19800 = Except.ok ([rowScenario], ["DONE", "IN PROGRESS"]) from rfl)).1⟩

/-- C8: the computation is deterministic: identical datasets, alias
sets and current date give identical outputs (today and the parser are
explicit inputs of the embedding, so no ambient state remains). -/
theorem C8_deterministic (parse : Cell → Option Timestamp)
    {df1 df2 : DataFrame} {ipS1 ipS2 dnS1 dnS2 : List String} {t1 t2 : Int}
    (h1 : df1 = df2) (h2 : ipS1 = ipS2) (h3 : dnS1 = dnS2) (h4 : t1 = t2) :
    compute_metrics parse df1 ipS1 dnS1 t1 = compute_metrics parse df2 ipS2 dnS2 t2 := by
  rw [h1, h2, h3, h4]

/-- C8 witness: determinism evaluated on the two-row scenario. -/
theorem C8_deterministic_witness :
    compute_metrics demoParse dfScenario defaultInProgress defaultDone 19800 =
      compute_metrics demoParse dfScenario defaultInProgress defaultDone 19800 :=
  C8_deterministic demoParse rfl rfl rfl rfl

/-- C9: the call leaves the caller-owned raw dataframe unchanged while
producing the same output as the pure computation; the source reads
`df_raw` only through `.columns` and a fresh `.rename(...).copy()`. -/
theorem C9_pure (parse : Cell → Option Timestamp) (df : DataFrame)
    (ipS dnS : List String) (today : Int) :
    (compute_metrics_frame parse df ipS dnS today).1 = df ∧
    (compute_metrics_frame parse df ipS dnS today).2 =
      compute_metrics parse df ipS dnS today :=
  ⟨rfl, rfl⟩

/-- C10: every result row carries at least one of the two dates, so
the metric type is never absent: the neither-date classification
branch is unreachable. -/
theorem C10_joined {parse : Cell → Option Timestamp} {df : DataFrame}
    {ipS dnS : List String} {today : Int} {rs : List MetricRow} {sts : List String}
    (h : compute_metrics parse df ipS dnS today = Except.ok (rs, sts))
    {r : MetricRow} (hr : r ∈ rs) :
    (r.inProgressDate.isSome = true ∨ r.doneDate.isSome = true) ∧
    r.metricType ≠ none := by
  obtain ⟨-, -, -, hmt, hsome⟩ := results_row_fields h hr
  refine ⟨hsome, ?_⟩
  rw [hmt]
  cases hdn : r.doneDate with
  | some d => simp [row_type]
  | none =>
    rcases hsome with hip | hd2
    · cases hipv : r.inProgressDate with
      | some i => simp [row_type, hipv]
      | none => rw [hipv] at hip; cases hip
    · rw [hdn] at hd2; cases hd2

/-- C10 witness: the joined-row invariant evaluated on the two-row
scenario. -/
theorem C10_joined_witness :
    compute_metrics demoParse dfScenario defaultInProgress defaultDone 19800 =
      Except.ok ([rowScenario], ["DONE", "IN PROGRESS"]) ∧
    ((rowScenario.inProgressDate.isSome = true ∨ rowScenario.doneDate.isSome = true) ∧
      rowScenario.metricType ≠ none) :=
  ⟨rfl, C10_joined (show compute_metrics demoParse dfScenario defaultInProgress
      defaultDone 19800 = Except.ok ([rowScenario], ["DONE", "IN PROGRESS"]) from rfl)
    (show rowScenario ∈ [rowScenario] from by decide)⟩
